import Mathlib

set_option maxHeartbeats 1000000

/-!
Shallow embedding of the mugo transpiler core
(`transpiler/transpiler.go`): the Go `token`/`ast` data the translator
consumes, the comment-ordered output sink, the value-spec path, the type
mapper, and the statement/expression emitters, together with theorems
about the behaviour the specification describes.
-/

namespace Mugo

/-- Token kinds and operators from the Go scanner that the transpiler
consumes (`go/token.Token`, restricted to what the code touches). -/
inductive Token where
  | INT
  | STRING
  | CHAR
  | FLOAT
  | DEFINE
  | ASSIGN
  | ADD
  | SUB
  | MUL
  | QUO
  | EQL
  | NEQ
  | LSS
  | GTR
  | LOR
  | LAND
  | NOT
  deriving DecidableEq, Repr

/-- Spelling of a token as produced by Go's `Token.String`, used when the
code prints a token with a `%s` verb. -/
def Token.str : Token → String
  | .INT => "INT"
  | .STRING => "STRING"
  | .CHAR => "CHAR"
  | .FLOAT => "FLOAT"
  | .DEFINE => ":="
  | .ASSIGN => "="
  | .ADD => "+"
  | .SUB => "-"
  | .MUL => "*"
  | .QUO => "/"
  | .EQL => "=="
  | .NEQ => "!="
  | .LSS => "<"
  | .GTR => ">"
  | .LOR => "||"
  | .LAND => "&&"
  | .NOT => "!"

/-- Object classification attached to resolved identifiers
(`go/ast.ObjKind`). -/
inductive ObjKind where
  | bad
  | pkg
  | con
  | typ
  | var
  | func
  | lbl
  deriving DecidableEq, Repr

/-- An identifier node (`go/ast.Ident`): its name, the object attached by
the parser (`none` models a nil `Obj`, as on identifiers the parser never
declares; the parser's declare assigns an object to every value-spec
name, the blank identifier included), and its source position. -/
structure Ident where
  name : String
  obj : Option ObjKind
  pos : Nat
  deriving DecidableEq, Repr

/-- Expression and type-expression nodes (`go/ast.Expr`), restricted to
the variants the transpiler inspects; `unsupportedExpr` stands for every
other variant, which all handlers send to their default arm. -/
inductive Expr where
  | basicLit (kind : Token) (value : String) (pos : Nat)
  | binaryExpr (x : Expr) (op : Token) (y : Expr) (pos : Nat)
  | callExpr (fn : Expr) (args : List Expr) (pos : Nat)
  | ident (i : Ident)
  | selectorExpr (x : Expr) (sel : Ident) (pos : Nat)
  | starExpr (x : Expr) (pos : Nat)
  | unaryExpr (op : Token) (x : Expr) (pos : Nat)
  | arrayType (elt : Expr) (pos : Nat)
  | ellipsis (elt : Expr) (pos : Nat)
  | funcType (pos : Nat)
  | interfaceType (pos : Nat)
  | unsupportedExpr (pos : Nat)

/-- Every expression node has positive size, because every constructor
adds one; used for the termination of the recursive translators. -/
lemma Expr.sizeOf_pos (e : Expr) : 0 < sizeOf e := by
  cases e <;> simp_arith

/-- Source start position of an expression (`ast.Node.Pos`). -/
def Expr.pos : Expr → Nat
  | .basicLit _ _ p => p
  | .binaryExpr _ _ _ p => p
  | .callExpr _ _ p => p
  | .ident i => i.pos
  | .selectorExpr _ _ p => p
  | .starExpr _ p => p
  | .unaryExpr _ _ p => p
  | .arrayType _ p => p
  | .ellipsis _ p => p
  | .funcType p => p
  | .interfaceType p => p
  | .unsupportedExpr p => p

/-- Statement nodes (`go/ast.Stmt`) handled by `handleStmt`;
`unsupportedStmt` stands for every other variant. -/
inductive Stmt where
  | exprStmt (x : Expr) (pos : Nat)
  | assignStmt (lhs : List Expr) (tok : Token) (rhs : List Expr) (pos : Nat)
  | ifStmt (cond : Expr) (body : List Stmt) (bodyPos : Nat) (els : Option Stmt) (pos : Nat)
  | returnStmt (results : List Expr) (pos : Nat)
  | blockStmt (list : List Stmt) (pos : Nat)
  | unsupportedStmt (pos : Nat)

/-- Source start position of a statement. -/
def Stmt.pos : Stmt → Nat
  | .exprStmt _ p => p
  | .assignStmt _ _ _ p => p
  | .ifStmt _ _ _ _ p => p
  | .returnStmt _ p => p
  | .blockStmt _ p => p
  | .unsupportedStmt p => p

/-- A comment group (`go/ast.CommentGroup`): the text of each comment in
the group plus the group's start position. -/
structure CommentGroup where
  list : List String
  pos : Nat
  deriving DecidableEq, Repr

/-- The transpiler's output sink (Go struct `output`).  `out` is the text
written so far, one entry per `Fprintf` call; `c` is the still-buffered
suffix of the comment-group list; `err` is the sticky write error.  The
`content`/`lines`/`lastNode` fields of the Go struct only feed
diagnostics and are not modelled. -/
structure output where
  out : List String
  c : List CommentGroup
  err : Option String
  deriving DecidableEq, Repr

/-- The comment-flushing loop at the top of `output.Writef`: drain groups
from the front of the buffer while the node position is strictly past the
group's start, emitting each comment line followed by a newline.  Returns
the remaining buffer and the emitted lines. -/
def flushComments : List CommentGroup → Nat → List CommentGroup × List String
  | [], _ => ([], [])
  | g :: rest, p =>
    if p > g.pos then
      let r := flushComments rest p
      (r.1, g.list.map (fun s => s ++ "\n") ++ r.2)
    else (g :: rest, [])

/-- `output.Writef`: if no error is pending, flush every comment group the
node position has passed, then write the formatted text. -/
def output.Writef (o : output) (p : Nat) (text : String) : output :=
  match o.err with
  | some _ => o
  | none =>
    let r := flushComments o.c p
    { o with c := r.1, out := o.out ++ r.2 ++ [text] }

/-- Result of a Go function that returns `(value, error)` and may also
panic on the way. -/
inductive GoRes (α : Type) where
  | ok (a : α)
  | err (msg : String)
  | panicked
  deriving DecidableEq, Repr

/-- One name/type/values spec of a constant or variable declaration
(`go/ast.ValueSpec`).  `pos` models `vs.Pos()`. -/
structure ValueSpec where
  names : List Ident
  typ : Option Expr
  values : List Expr
  pos : Nat

/-- `guessType` from the source: reject more than one initializer; with no
initializer, read the explicit type through the unchecked assertion
`vs.Type.(*ast.Ident)` (any non-identifier or absent type is a Go panic)
and default `int`/`string` to their zero literals; otherwise require the
single initializer to be a basic literal and return its kind and text. -/
def guessType (vs : ValueSpec) : GoRes (Token × String) :=
  if vs.values.length > 1 then .err "unsupported # of values"
  else if vs.values.length = 0 then
    match vs.typ with
    | some (.ident i) =>
      if i.name = "int" then .ok (.INT, "0")
      else if i.name = "string" then .ok (.STRING, "\"\"")
      else .err ("unsupported type: " ++ i.name)
    | _ => .panicked
  else
    match vs.values with
    | .basicLit kind value _ :: _ => .ok (kind, value)
    | _ => .err "unsupported value"

/-- `isValueConst` from the source: `vs.Names[0].Obj.Kind == ast.Con`.
Returns `none` when the Go code panics (an empty name list, or a nil
`Obj` on the first name). -/
def isValueConst (vs : ValueSpec) : Option Bool :=
  match vs.names with
  | [] => none
  | n :: _ =>
    match n.obj with
    | none => none
    | some k => some (k = ObjKind.con)

/-- `tokenStr` from the source: the closest C type for a literal token. -/
def tokenStr (kind : Token) (isConst : Bool) : String :=
  match kind with
  | .INT => if isConst then "const int" else "int"
  | .STRING => if isConst then "const char * const" else "const char *"
  | _ => ""

/-- `handleValueSpec` from the source: reject an empty name list, infer
the literal kind and text, resolve constness, render the C type token,
and write one declaration line per bound name. -/
def handleValueSpec (o : output) (vs : ValueSpec) : output × GoRes Unit :=
  if vs.names = [] then (o, .err "unsupported # of value names")
  else
    match guessType vs with
    | .panicked => (o, .panicked)
    | .err e => (o, .err e)
    | .ok (kind, lit) =>
      match isValueConst vs with
      | none => (o, .panicked)
      | some isConst =>
        let typ := tokenStr kind isConst
        if typ.length = 0 then (o, .err ("unsupported literal kind: " ++ kind.str))
        else
          (vs.names.foldl
            (fun acc name =>
              acc.Writef vs.pos (String.intercalate " " [typ, name.name, "=", lit] ++ ";\n"))
            o,
           .ok ())

/-- `exprTypeToType` from the source: the recursive map from a type
expression to its C spelling, with a flag reporting an ellipsis. -/
def exprTypeToType : Expr → Except String (String × Bool)
  | .arrayType elt _ =>
    match exprTypeToType elt with
    | .error e => .error e
    | .ok (name, extra) => .ok ("*" ++ name, extra)
  | .ellipsis elt _ =>
    match exprTypeToType elt with
    | .error e => .error e
    | .ok (name, _) => .ok (name, true)
  | .funcType _ => .error "function pointers are not supported"
  | .ident i => .ok (i.name, false)
  | .interfaceType _ => .ok ("void *", false)
  | .selectorExpr x sel _ =>
    match exprTypeToType x with
    | .error e => .error e
    | .ok (xs, _) => .ok (xs ++ "." ++ sel.name, false)
  | .starExpr x _ =>
    match exprTypeToType x with
    | .error e => .error e
    | .ok (xs, extra) => .ok ("*" ++ xs, extra)
  | _ => .error "unexpected param type"

/-- The selector arm of `exprTypeToType` written exactly as the source
writes it, as a recursive call on the member identifier: the definition
above inlines that call (the identifier arm always succeeds with the
identifier's name) to keep the recursion structural. -/
lemma exprTypeToType_selector (x : Expr) (sel : Ident) (pos : Nat) :
    exprTypeToType (.selectorExpr x sel pos) =
      (match exprTypeToType x with
       | .error e => .error e
       | .ok (xs, _) =>
         match exprTypeToType (.ident sel) with
         | .error e => .error e
         | .ok (ss, _) => .ok (xs ++ "." ++ ss, false)) := by
  cases h : exprTypeToType x <;> simp [exprTypeToType, h]

/-- One parameter or receiver field of a function declaration
(`go/ast.Field`): the names bound at this field and their shared type. -/
structure Field where
  names : List Ident
  typ : Expr
  pos : Nat

/-- A function declaration (`go/ast.FuncDecl`), restricted to the parts
`extractArgumentsType` and `handleFuncDecl` read. -/
structure FuncDecl where
  recv : Option (List Field)
  name : Ident
  params : List Field
  results : Option (List Field)
  body : List Stmt
  bodyPos : Nat
  pos : Nat

/-- The per-field loop of `extractArgumentsType`: map each field's type,
reject any type carrying the ellipsis flag, and repeat the mapped type
once per bound name (once if the field binds no name). -/
def extractArgumentsTypeLoop : List Field → Except String (List String)
  | [] => .ok []
  | arg :: rest =>
    match exprTypeToType arg.typ with
    | .error e => .error e
    | .ok (t, extra) =>
      if extra then .error "unsupported param type"
      else
        match extractArgumentsTypeLoop rest with
        | .error e => .error e
        | .ok ts =>
          .ok (List.replicate (if arg.names.length = 0 then 1 else arg.names.length) t ++ ts)

/-- `extractArgumentsType` from the source: demand at most one receiver,
keep a pointer receiver as a leading parameter field, drop a value
receiver, then run the per-field loop over receiver-plus-parameters. -/
def extractArgumentsType (fd : FuncDecl) : Except String (List String) :=
  match fd.recv with
  | none => extractArgumentsTypeLoop fd.params
  | some [f] =>
    match f.typ with
    | .starExpr _ _ => extractArgumentsTypeLoop (f :: fd.params)
    | _ => extractArgumentsTypeLoop fd.params
  | some _ => .error "expect only one receiver; please fix code"

/-- `typeFromExpr` from the source: the token written before a `:=`
target; a literal's C spelling, an identifier's own text, and the empty
string for every other expression shape. -/
def typeFromExpr : Expr → String
  | .basicLit kind _ _ => tokenStr kind false
  | .ident i => i.name
  | _ => ""

mutual

/-- `handleExpr` from the source, with the bodies of its two delegates
(`handleBinaryExpr`, `handleCallExpr`) unfolded in place so the mutual
recursion stays structural; the stand-alone wrappers below restate those
delegates and are proved equal to these arms. -/
def handleExpr : output → Expr → output × GoRes Unit
  | o, .basicLit _ value pos => (o.Writef pos value, .ok ())
  | o, .binaryExpr x op y pos =>
    match handleExpr o x with
    | (o1, .ok ()) => handleExpr (o1.Writef pos op.str) y
    | r => r
  | o, .callExpr fn args pos =>
    match renderCallArgs args with
    | (.ok (), argStrs) =>
      match exprTypeToType fn with
      | .error e => (o, .err e)
      | .ok (callee, _) =>
        (o.Writef pos (callee ++ "(" ++ String.intercalate ", " argStrs ++ ")"), .ok ())
    | (r, _) => (o, r)
  | o, .ident i => (o.Writef i.pos i.name, .ok ())
  | o, .selectorExpr x sel pos =>
    match handleExpr o x with
    | (o1, .ok ()) => ((o1.Writef pos ".").Writef sel.pos sel.name, .ok ())
    | r => r
  | o, .starExpr x pos => handleExpr (o.Writef pos "*") x
  | o, .unaryExpr op x pos => handleExpr (o.Writef pos op.str) x
  | o, _ => (o, .err "unsupported expr")

/-- The argument loop of `handleCallExpr`: render each argument into a
fresh buffer-backed sink with no comment list, collecting the rendered
strings, stopping at the first failure. -/
def renderCallArgs : List Expr → GoRes Unit × List String
  | [] => (.ok (), [])
  | a :: rest =>
    match handleExpr { out := [], c := [], err := none } a with
    | (t, .ok ()) =>
      let r := renderCallArgs rest
      (r.1, String.join t.out :: r.2)
    | (_, r) => (r, [])

end

/-- The selector arm of `handleExpr` written exactly as the source writes
it, as a recursive call on the member identifier: the definition above
inlines that call (the identifier arm always writes the identifier's
name) to keep the recursion structural. -/
lemma handleExpr_selector (o : output) (x : Expr) (sel : Ident) (pos : Nat) :
    handleExpr o (.selectorExpr x sel pos) =
      (match handleExpr o x with
       | (o1, .ok ()) => handleExpr (o1.Writef pos ".") (.ident sel)
       | r => r) := by
  rcases h : handleExpr o x with ⟨o1, r⟩
  cases r <;> simp [handleExpr, h]

/-- `handleBinaryExpr` from the source: left operand, operator spelling,
right operand. -/
def handleBinaryExpr (o : output) (x : Expr) (op : Token) (y : Expr) (pos : Nat) :
    output × GoRes Unit :=
  match handleExpr o x with
  | (o1, .ok ()) => handleExpr (o1.Writef pos op.str) y
  | r => r

/-- `handleCallExpr` from the source: render the arguments into a side
buffer, resolve the callee spelling through the type mapper, then write
`callee(arg1, arg2, ...)` in one call. -/
def handleCallExpr (o : output) (fn : Expr) (args : List Expr) (pos : Nat) :
    output × GoRes Unit :=
  match renderCallArgs args with
  | (.ok (), argStrs) =>
    match exprTypeToType fn with
    | .error e => (o, .err e)
    | .ok (callee, _) =>
      (o.Writef pos (callee ++ "(" ++ String.intercalate ", " argStrs ++ ")"), .ok ())
  | (r, _) => (o, r)

/-- The binary-expression arm of `handleExpr` is exactly
`handleBinaryExpr`, as in the source dispatch. -/
lemma handleExpr_binary (o : output) (x : Expr) (op : Token) (y : Expr) (pos : Nat) :
    handleExpr o (.binaryExpr x op y pos) = handleBinaryExpr o x op y pos := by
  simp only [handleExpr, handleBinaryExpr]

/-- The call-expression arm of `handleExpr` is exactly `handleCallExpr`,
as in the source dispatch. -/
lemma handleExpr_call (o : output) (fn : Expr) (args : List Expr) (pos : Nat) :
    handleExpr o (.callExpr fn args pos) = handleCallExpr o fn args pos := by
  simp only [handleExpr, handleCallExpr]

/-- The left-hand-side loop of the assignment arm of `handleStmt`: a
comma before every target but the first; before the first target of a
definition, the inferred type token of `st.Rhs[0]` (a Go index panic when
the right-hand list is empty); then the target expression itself. -/
def handleAssignLhsLoop (stPos : Nat) (tok : Token) (rhs : List Expr) :
    output → List Expr → Bool → output × GoRes Unit
  | o, [], _ => (o, .ok ())
  | o, l :: rest, first =>
    let pre : output × GoRes Unit :=
      if !first then (o.Writef l.pos ", ", .ok ())
      else if tok = Token.DEFINE then
        match rhs with
        | [] => (o, .panicked)
        | r :: _ => (o.Writef stPos (typeFromExpr r ++ " "), .ok ())
      else (o, .ok ())
    match pre with
    | (o1, .ok ()) =>
      match handleExpr o1 l with
      | (o2, .ok ()) => handleAssignLhsLoop stPos tok rhs o2 rest false
      | r => r
    | r => r

/-- The shared shape of the right-hand-side loop of the assignment arm
and the results loop of the return arm of `handleStmt`: a comma before
every expression but the first, then the expression. -/
def handleExprListSep : output → List Expr → Bool → output × GoRes Unit
  | o, [], _ => (o, .ok ())
  | o, e :: rest, first =>
    let o1 := if first then o else o.Writef e.pos ", "
    match handleExpr o1 e with
    | (o2, .ok ()) => handleExprListSep o2 rest false
    | r => r

mutual

/-- `handleStmt` from the source: write the two-space indent, then
dispatch on the statement variant; assignment and return loops emit
comma-separated operand lists, conditionals recurse into their blocks,
and everything else is an unsupported-statement error. -/
def handleStmt (o : output) (s : Stmt) : output × GoRes Unit :=
  let o0 := o.Writef s.pos "  "
  match s with
  | .exprStmt x pos =>
    (match handleExpr o0 x with
     | (o1, .ok ()) => (o1.Writef pos ";\n", .ok ())
     | r => r)
  | .assignStmt lhs tok rhs pos =>
    if tok ≠ Token.DEFINE ∧ tok ≠ Token.ASSIGN then
      (o0, .err ("unexpected assignment: " ++ tok.str))
    else
      match handleAssignLhsLoop pos tok rhs o0 lhs true with
      | (o1, .ok ()) =>
        (match handleExprListSep (o1.Writef pos " = ") rhs true with
         | (o2, .ok ()) => (o2.Writef pos ";\n", .ok ())
         | r => r)
      | r => r
  | .ifStmt cond body _ els pos =>
    (match handleExpr (o0.Writef pos "if (") cond with
     | (o1, .ok ()) =>
       (match handleBlockStmt (o1.Writef pos ") \x7b\n") body with
        | (o2, .ok ()) => handleIfElse (o2.Writef pos "\x7d") pos els
        | r => r)
     | r => r)
  | .returnStmt results pos =>
    (match handleExprListSep (o0.Writef pos "return ") results true with
     | (o1, .ok ()) => (o1.Writef pos ";\n", .ok ())
     | r => r)
  | _ => (o0, .err "unsupported statement")

/-- The else branch of the conditional arm of `handleStmt`: after the
closing brace of the body, either finish the line, or demand a block
statement and translate it between ` else ` braces. -/
def handleIfElse (o : output) (pos : Nat) (els : Option Stmt) : output × GoRes Unit :=
  match els with
  | none => (o.Writef pos "\n", .ok ())
  | some (.blockStmt bl _) =>
    (match handleBlockStmt (o.Writef pos " else \x7b\n") bl with
     | (o4, .ok ()) => ((o4.Writef pos "\x7d").Writef pos "\n", .ok ())
     | r => r)
  | some _ => (o, .err "unsupported else statement")

/-- `handleBlockStmt` from the source: translate the block's statements
in order, stopping at the first failure. -/
def handleBlockStmt (o : output) (stmts : List Stmt) : output × GoRes Unit :=
  match stmts with
  | [] => (o, .ok ())
  | s :: rest =>
    match handleStmt o s with
    | (o1, .ok ()) => handleBlockStmt o1 rest
    | r => r

end

/-! ## Helper notions for the theorems -/

/-- The strings a comma-separated emission loop writes: one comma entry
before every element except, when `first` is true, the first. -/
def commaSepFrom : Bool → List String → List String
  | _, [] => []
  | true, s :: rest => s :: commaSepFrom false rest
  | false, s :: rest => ", " :: s :: commaSepFrom false rest

/-- An expression the emitter renders with a single write: a literal or
an identifier. -/
def Expr.isAtom : Expr → Bool
  | .basicLit _ _ _ => true
  | .ident _ => true
  | _ => false

/-- The single string the emitter writes for an atomic expression. -/
def Expr.atomText : Expr → String
  | .basicLit _ v _ => v
  | .ident i => i.name
  | _ => ""

/-- With no buffered comments and no pending error, a write appends
exactly its text. -/
lemma Writef_nil (o : output) (hc : o.c = []) (he : o.err = none) (p : Nat) (t : String) :
    o.Writef p t = { o with out := o.out ++ [t] } := by
  cases o
  simp only at hc he
  simp [output.Writef, flushComments, hc, he]

/-- The emitter renders an atomic expression as one appended string. -/
lemma handleExpr_atom (e : Expr) (hA : e.isAtom = true) (o : output)
    (hc : o.c = []) (he : o.err = none) :
    handleExpr o e = ({ o with out := o.out ++ [e.atomText] }, .ok ()) := by
  cases e <;> simp [Expr.isAtom] at hA <;>
    simp [handleExpr, Expr.atomText, Writef_nil o hc he]

/-- The comma-separated expression loop, continued after its first
element, appends a comma entry and the text of each remaining atomic
expression. -/
lemma handleExprListSep_false (es : List Expr) (hA : ∀ e ∈ es, e.isAtom = true) :
    ∀ o : output, o.c = [] → o.err = none →
    handleExprListSep o es false =
      ({ o with out := o.out ++ commaSepFrom false (es.map Expr.atomText) }, .ok ()) := by
  induction es with
  | nil => intro o hc he; simp [handleExprListSep, commaSepFrom]
  | cons e rest ih =>
    intro o hc he
    have hAe : e.isAtom = true := hA e (by simp)
    have hrest : ∀ x ∈ rest, x.isAtom = true := fun x hx => hA x (List.mem_cons_of_mem _ hx)
    have h1 := Writef_nil o hc he e.pos ", "
    have h2 := handleExpr_atom e hAe { o with out := o.out ++ [", "] } hc he
    have h3 := ih hrest { o with out := (o.out ++ [", "]) ++ [e.atomText] } hc he
    simp only [handleExprListSep, Bool.false_eq_true, if_false, h1, h2, h3, commaSepFrom,
      List.map_cons, List.append_assoc, List.cons_append, List.nil_append]
    simpa [List.append_assoc] using h3

/-- The comma-separated expression loop on atomic expressions appends
exactly the comma-separated element texts. -/
lemma handleExprListSep_atoms (es : List Expr) (hA : ∀ e ∈ es, e.isAtom = true)
    (o : output) (first : Bool) (hc : o.c = []) (he : o.err = none) :
    handleExprListSep o es first =
      ({ o with out := o.out ++ commaSepFrom first (es.map Expr.atomText) }, .ok ()) := by
  cases first with
  | false => exact handleExprListSep_false es hA o hc he
  | true =>
    cases es with
    | nil => simp [handleExprListSep, commaSepFrom]
    | cons e rest =>
      have hAe : e.isAtom = true := hA e (by simp)
      have hrest : ∀ x ∈ rest, x.isAtom = true := fun x hx => hA x (List.mem_cons_of_mem _ hx)
      have h2 := handleExpr_atom e hAe o hc he
      have h3 := handleExprListSep_false rest hrest { o with out := o.out ++ [e.atomText] } hc he
      simp only [handleExprListSep, if_true, h2, h3, commaSepFrom, List.map_cons,
        List.append_assoc, List.cons_append, List.nil_append]

/-- The assignment target loop, continued after its first element,
behaves like the generic comma-separated loop whatever the operator. -/
lemma handleAssignLhsLoop_false (stPos : Nat) (tok : Token) (rhs : List Expr)
    (es : List Expr) (hA : ∀ e ∈ es, e.isAtom = true) :
    ∀ o : output, o.c = [] → o.err = none →
    handleAssignLhsLoop stPos tok rhs o es false =
      ({ o with out := o.out ++ commaSepFrom false (es.map Expr.atomText) }, .ok ()) := by
  induction es with
  | nil => intro o hc he; simp [handleAssignLhsLoop, commaSepFrom]
  | cons e rest ih =>
    intro o hc he
    have hAe : e.isAtom = true := hA e (by simp)
    have hrest : ∀ x ∈ rest, x.isAtom = true := fun x hx => hA x (List.mem_cons_of_mem _ hx)
    have h1 := Writef_nil o hc he e.pos ", "
    have h2 := handleExpr_atom e hAe { o with out := o.out ++ [", "] } hc he
    have h3 := ih hrest { o with out := (o.out ++ [", "]) ++ [e.atomText] } hc he
    simp only [handleAssignLhsLoop, Bool.not_false, if_true, h1, h2, h3, commaSepFrom,
      List.map_cons, List.append_assoc, List.cons_append, List.nil_append]
    simpa [List.append_assoc] using h3

/-- The assignment target loop under a plain `=` operator appends exactly
the comma-separated target texts, with no type token and no error. -/
lemma handleAssignLhsLoop_assign (stPos : Nat) (rhs : List Expr)
    (es : List Expr) (hA : ∀ e ∈ es, e.isAtom = true)
    (o : output) (hc : o.c = []) (he : o.err = none) :
    handleAssignLhsLoop stPos .ASSIGN rhs o es true =
      ({ o with out := o.out ++ commaSepFrom true (es.map Expr.atomText) }, .ok ()) := by
  cases es with
  | nil => simp [handleAssignLhsLoop, commaSepFrom]
  | cons e rest =>
    have hAe : e.isAtom = true := hA e (by simp)
    have hrest : ∀ x ∈ rest, x.isAtom = true := fun x hx => hA x (List.mem_cons_of_mem _ hx)
    have h2 := handleExpr_atom e hAe o hc he
    have h3 := handleAssignLhsLoop_false stPos .ASSIGN rhs rest hrest
      { o with out := o.out ++ [e.atomText] } hc he
    simp only [handleAssignLhsLoop, Bool.not_true, Bool.false_eq_true, if_false,
      reduceCtorEq, reduceIte, h2, h3, commaSepFrom, List.map_cons,
      List.append_assoc, List.cons_append, List.nil_append]

/-- A direct literal node, the only initializer shape `guessType`
accepts. -/
def Expr.isBasicLit : Expr → Bool
  | .basicLit _ _ _ => true
  | _ => false

/-- A field whose mapped type carries the variadic flag makes the
argument loop fail, wherever in the list the field sits. -/
lemma extractArgumentsTypeLoop_variadic (fs : List Field) (f : Field) (hf : f ∈ fs)
    (t : String) (hv : exprTypeToType f.typ = .ok (t, true)) :
    ∃ e, extractArgumentsTypeLoop fs = .error e := by
  induction fs with
  | nil => cases hf
  | cons a rest ih =>
    rcases List.mem_cons.mp hf with rfl | hmem
    · refine ⟨"unsupported param type", ?_⟩
      simp [extractArgumentsTypeLoop, hv]
    · cases ha : exprTypeToType a.typ with
      | error e => exact ⟨e, by simp [extractArgumentsTypeLoop, ha]⟩
      | ok v =>
        rcases v with ⟨ta, extra⟩
        cases extra with
        | true => exact ⟨"unsupported param type", by simp [extractArgumentsTypeLoop, ha]⟩
        | false =>
          rcases ih hmem with ⟨e, he⟩
          exact ⟨e, by simp [extractArgumentsTypeLoop, ha, he]⟩

/-- A function declaration whose only parameter is variadic: the trailing
position. -/
def variadicFd : FuncDecl :=
  { recv := none
    name := ⟨"f", some .func, 1⟩
    params := [⟨[⟨"vals", some .var, 5⟩], .ellipsis (.ident ⟨"int", none, 10⟩) 10, 5⟩]
    results := none
    body := []
    bodyPos := 20
    pos := 1 }

/-- C4 counterexample: a variadic marker in the last (indeed only)
parameter position is rejected by `extractArgumentsType` with
"unsupported param type", where the claim says a trailing variadic
parameter is not itself an error. -/
theorem trailing_variadic_rejected :
    variadicFd.params.length = 1
    ∧ variadicFd.params.map (fun f => exprTypeToType f.typ) = [.ok ("int", true)]
    ∧ extractArgumentsType variadicFd = .error "unsupported param type" :=
  ⟨rfl, rfl, rfl⟩

/-- C4 (amended): `exprTypeToType` maps an ellipsis type to the inner
type's spelling with the variadic flag set, and `extractArgumentsType`
rejects a parameter whose type carries the variadic flag in every
position, the trailing one included. -/
theorem variadic_flag_rejected_everywhere :
    (∀ (inner : Expr) (q : Nat) (n : String) (b : Bool),
        exprTypeToType inner = .ok (n, b) → exprTypeToType (.ellipsis inner q) = .ok (n, true))
    ∧ (∀ fd : FuncDecl,
        (∃ f ∈ fd.params, ∃ t, exprTypeToType f.typ = .ok (t, true)) →
        ∃ e, extractArgumentsType fd = .error e) := by
  constructor
  · intro inner q n b h
    simp [exprTypeToType, h]
  · intro fd hex
    obtain ⟨f, hmem, t, hv⟩ := hex
    rcases extractArgumentsTypeLoop_variadic fd.params f hmem t hv with ⟨e0, he0⟩
    rcases hr : fd.recv with _ | (_ | ⟨g, _ | ⟨g2, rest⟩⟩)
    · exact ⟨e0, by simp [extractArgumentsType, hr, he0]⟩
    · exact ⟨"expect only one receiver; please fix code", by simp [extractArgumentsType, hr]⟩
    · rcases extractArgumentsTypeLoop_variadic (g :: fd.params) f
        (List.mem_cons_of_mem _ hmem) t hv with ⟨e1, he1⟩
      cases hgt : g.typ
      case starExpr x p => exact ⟨e1, by simp [extractArgumentsType, hr, hgt, he1]⟩
      all_goals exact ⟨e0, by simp [extractArgumentsType, hr, hgt, he0]⟩
    · exact ⟨"expect only one receiver; please fix code", by simp [extractArgumentsType, hr]⟩

/-- C4 witness: the amended claim at a concrete ellipsis type and at the
concrete single-variadic-parameter declaration. -/
theorem variadic_flag_rejected_everywhere_witness :
    exprTypeToType (.ellipsis (.ident ⟨"int", none, 10⟩) 10) = .ok ("int", true)
    ∧ ∃ e, extractArgumentsType variadicFd = .error e :=
  ⟨variadic_flag_rejected_everywhere.1 (.ident ⟨"int", none, 10⟩) 10 "int" false rfl,
   variadic_flag_rejected_everywhere.2 variadicFd
     ⟨⟨[⟨"vals", some .var, 5⟩], .ellipsis (.ident ⟨"int", none, 10⟩) 10, 5⟩,
      by simp [variadicFd], "int", rfl⟩⟩

/-- C5: the type mapper sends a pointer type and an array type over the
same named element type to the same spelling, a star prefixed to the
element name; in particular both of `*int` and `[]int` map to `"*int"`
with the variadic flag false. -/
theorem pointer_array_same_spelling (i : Ident) (p q : Nat) :
    exprTypeToType (.starExpr (.ident i) p) = .ok ("*" ++ i.name, false)
    ∧ exprTypeToType (.arrayType (.ident i) q) = .ok ("*" ++ i.name, false)
    ∧ exprTypeToType (.starExpr (.ident ⟨"int", none, 0⟩) 0) = .ok ("*int", false)
    ∧ exprTypeToType (.arrayType (.ident ⟨"int", none, 0⟩) 0) = .ok ("*int", false) := by
  refine ⟨?_, ?_, rfl, rfl⟩ <;> simp [exprTypeToType]

/-- C6: on a value spec with no initializer and an explicit identifier
type, `guessType` returns `(INT, "0")` for `int`, `(STRING, "\"\"")` for
`string`, and an unsupported-type error for every other identifier. -/
theorem guessType_zero_initializer (vs : ValueSpec) (i : Ident)
    (hv : vs.values = []) (ht : vs.typ = some (.ident i)) :
    (i.name = "int" → guessType vs = .ok (.INT, "0"))
    ∧ (i.name = "string" → guessType vs = .ok (.STRING, "\"\""))
    ∧ (i.name ≠ "int" → i.name ≠ "string" →
        guessType vs = .err ("unsupported type: " ++ i.name)) := by
  refine ⟨?_, ?_, ?_⟩
  · intro h; simp [guessType, hv, ht, h]
  · intro h; simp [guessType, hv, ht, h]
  · intro h1 h2; simp [guessType, hv, ht, h1, h2]

/-- C6 witness: the zero-initializer rule at the concrete spec
`var a int`. -/
theorem guessType_zero_initializer_witness :
    guessType ⟨[⟨"a", some .var, 5⟩], some (.ident ⟨"int", none, 7⟩), [], 5⟩ = .ok (.INT, "0") :=
  (guessType_zero_initializer _ ⟨"int", none, 7⟩ rfl rfl).1 rfl

/-- The value spec of `var a *int`: no initializer and a non-identifier
explicit type, which `guessType`'s unchecked type assertion turns into a
panic. -/
def specPtr : ValueSpec :=
  ⟨[⟨"a", some .var, 5⟩], some (.starExpr (.ident ⟨"int", none, 8⟩) 7), [], 5⟩

/-- The value spec of `var _ = 1` as the parser produces it: the
parser's declare assigns an object of kind `Var` to every value-spec
name, the blank identifier included (only the scope insertion is skipped
for `_`), so the blank name carries a non-nil `Obj`. -/
def specBlank : ValueSpec :=
  ⟨[⟨"_", some .var, 5⟩], none, [.basicLit .INT "1" 9], 5⟩

/-- C10 counterexample: `var _ = 1` does not panic: the parser attaches
an object of kind `Var` to the blank identifier, so `isValueConst`
returns `false` and `handleValueSpec` emits `int _ = 1;` successfully,
refuting the claim's nil-`Obj` prong at its own example input. -/
theorem blank_identifier_no_panic :
    isValueConst specBlank = some false
    ∧ handleValueSpec ⟨[], [], none⟩ specBlank
        = (⟨["int _ = 1;\n"], [], none⟩, .ok ()) :=
  ⟨rfl, rfl⟩

/-- C10 (amended): the value-spec path is not total over the parser's
output, but only through `guessType`: its unchecked type assertion
panics on a spec with no initializer and a non-identifier explicit type
(`var a *int`), and `handleValueSpec` propagates the panic; the
blank-identifier binding `var _ = 1` carries a parser-assigned `Var`
object, so `isValueConst` returns `false` and the spec translates
without panic. -/
theorem guessType_assertion_panic :
    guessType specPtr = .panicked
    ∧ handleValueSpec ⟨[], [], none⟩ specPtr = (⟨[], [], none⟩, .panicked)
    ∧ isValueConst specBlank = some false
    ∧ handleValueSpec ⟨[], [], none⟩ specBlank
        = (⟨["int _ = 1;\n"], [], none⟩, .ok ()) :=
  ⟨rfl, rfl, rfl, rfl⟩

/-- C2 counterexample: an assignment with two targets and two values is
translated without any error — `handleStmt` emits `a, b = 1, 2;` — where
the claim says any arity above one fails with `UnsupportedArity`. -/
theorem assign_two_targets_no_error :
    ([Expr.ident ⟨"a", some .var, 3⟩, Expr.ident ⟨"b", some .var, 6⟩].length > 1)
    ∧ handleStmt ⟨[], [], none⟩
        (.assignStmt [.ident ⟨"a", some .var, 3⟩, .ident ⟨"b", some .var, 6⟩] .ASSIGN
          [.basicLit .INT "1" 10, .basicLit .INT "2" 13] 3)
      = (⟨["  ", "a", ", ", "b", " = ", "1", ", ", "2", ";\n"], [], none⟩, .ok ()) :=
  ⟨by decide, rfl⟩

/-- C2 (amended): `handleStmt` imposes no arity bound on an assignment:
with the plain `=` operator and any lists of literal or identifier
operands, it emits the targets comma-separated, ` = `, the values
comma-separated, and the terminator, returning success. -/
theorem handleStmt_assign_no_arity_bound (o : output) (hc : o.c = []) (he : o.err = none)
    (lhs rhs : List Expr) (hl : ∀ e ∈ lhs, e.isAtom = true) (hr : ∀ e ∈ rhs, e.isAtom = true)
    (p : Nat) :
    handleStmt o (.assignStmt lhs .ASSIGN rhs p)
      = ({ o with out := o.out ++ ["  "] ++ commaSepFrom true (lhs.map Expr.atomText)
            ++ [" = "] ++ commaSepFrom true (rhs.map Expr.atomText) ++ [";\n"] }, .ok ()) := by
  obtain ⟨os, oc, oe⟩ := o
  simp only at hc he
  subst hc; subst he
  have h0 : (output.mk os [] none).Writef p "  " = output.mk (os ++ ["  "]) [] none := by
    simpa using Writef_nil ⟨os, [], none⟩ rfl rfl p "  "
  have h1 : handleAssignLhsLoop p Token.ASSIGN rhs (output.mk (os ++ ["  "]) [] none) lhs true
      = (output.mk (os ++ ["  "] ++ commaSepFrom true (lhs.map Expr.atomText)) [] none,
         .ok ()) := by
    simpa [List.append_assoc] using
      handleAssignLhsLoop_assign p rhs lhs hl ⟨os ++ ["  "], [], none⟩ rfl rfl
  have h2 : (output.mk (os ++ ["  "] ++ commaSepFrom true (lhs.map Expr.atomText)) [] none).Writef
        p " = "
      = output.mk (os ++ ["  "] ++ commaSepFrom true (lhs.map Expr.atomText) ++ [" = "])
          [] none := by
    simpa [List.append_assoc] using
      Writef_nil ⟨os ++ ["  "] ++ commaSepFrom true (lhs.map Expr.atomText), [], none⟩
        rfl rfl p " = "
  have h3 : handleExprListSep
        (output.mk (os ++ ["  "] ++ commaSepFrom true (lhs.map Expr.atomText) ++ [" = "])
          [] none) rhs true
      = (output.mk (os ++ ["  "] ++ commaSepFrom true (lhs.map Expr.atomText) ++ [" = "]
            ++ commaSepFrom true (rhs.map Expr.atomText)) [] none, .ok ()) := by
    simpa [List.append_assoc] using
      handleExprListSep_atoms rhs hr
        ⟨os ++ ["  "] ++ commaSepFrom true (lhs.map Expr.atomText) ++ [" = "], [], none⟩
        true rfl rfl
  have h4 : (output.mk (os ++ ["  "] ++ commaSepFrom true (lhs.map Expr.atomText) ++ [" = "]
          ++ commaSepFrom true (rhs.map Expr.atomText)) [] none).Writef p ";\n"
      = output.mk (os ++ ["  "] ++ commaSepFrom true (lhs.map Expr.atomText) ++ [" = "]
          ++ commaSepFrom true (rhs.map Expr.atomText) ++ [";\n"]) [] none := by
    simpa [List.append_assoc] using
      Writef_nil ⟨os ++ ["  "] ++ commaSepFrom true (lhs.map Expr.atomText) ++ [" = "]
          ++ commaSepFrom true (rhs.map Expr.atomText), [], none⟩ rfl rfl p ";\n"
  simp only [handleStmt, Stmt.pos, h0]
  rw [if_neg (by decide : ¬(Token.ASSIGN ≠ Token.DEFINE ∧ Token.ASSIGN ≠ Token.ASSIGN))]
  simp only [h1, h2, h3, h4]

/-- C2 witness: the amended claim at the concrete two-target statement. -/
theorem handleStmt_assign_no_arity_bound_witness :
    (∀ e ∈ [Expr.ident ⟨"a", some .var, 3⟩, Expr.ident ⟨"b", some .var, 6⟩], e.isAtom = true)
    ∧ handleStmt ⟨["x"], [], none⟩
        (.assignStmt [.ident ⟨"a", some .var, 3⟩, .ident ⟨"b", some .var, 6⟩] .ASSIGN
          [.basicLit .INT "1" 10, .basicLit .INT "2" 13] 3)
      = (⟨["x", "  ", "a", ", ", "b", " = ", "1", ", ", "2", ";\n"], [], none⟩, .ok ()) :=
  ⟨by decide,
   (handleStmt_assign_no_arity_bound ⟨["x"], [], none⟩ rfl rfl
      [.ident ⟨"a", some .var, 3⟩, .ident ⟨"b", some .var, 6⟩]
      [.basicLit .INT "1" 10, .basicLit .INT "2" 13]
      (by decide) (by decide) 3).trans rfl⟩

/-- C3 counterexample: a return statement with two result expressions is
translated without any error — `handleStmt` emits `return 1, 2;` — where
the claim says more than one result fails with `UnsupportedArity`. -/
theorem return_two_results_no_error :
    ([Expr.basicLit .INT "1" 10, Expr.basicLit .INT "2" 13].length > 1)
    ∧ handleStmt ⟨[], [], none⟩
        (.returnStmt [.basicLit .INT "1" 10, .basicLit .INT "2" 13] 3)
      = (⟨["  ", "return ", "1", ", ", "2", ";\n"], [], none⟩, .ok ()) :=
  ⟨by decide, rfl⟩

/-- C3 (amended): `handleStmt` imposes no arity bound on a return
statement: for any list of literal or identifier results it writes
`return `, the results comma-separated, and the terminator, returning
success. -/
theorem handleStmt_return_no_arity_bound (o : output) (hc : o.c = []) (he : o.err = none)
    (results : List Expr) (hres : ∀ e ∈ results, e.isAtom = true) (p : Nat) :
    handleStmt o (.returnStmt results p)
      = ({ o with out := o.out ++ ["  ", "return "]
            ++ commaSepFrom true (results.map Expr.atomText) ++ [";\n"] }, .ok ()) := by
  obtain ⟨os, oc, oe⟩ := o
  simp only at hc he
  subst hc; subst he
  have h0 : (output.mk os [] none).Writef p "  " = output.mk (os ++ ["  "]) [] none := by
    simpa using Writef_nil ⟨os, [], none⟩ rfl rfl p "  "
  have h1 : (output.mk (os ++ ["  "]) [] none).Writef p "return "
      = output.mk (os ++ ["  ", "return "]) [] none := by
    simpa using Writef_nil ⟨os ++ ["  "], [], none⟩ rfl rfl p "return "
  have h2 : handleExprListSep (output.mk (os ++ ["  ", "return "]) [] none) results true
      = (output.mk (os ++ ["  ", "return "]
            ++ commaSepFrom true (results.map Expr.atomText)) [] none, .ok ()) := by
    simpa [List.append_assoc] using
      handleExprListSep_atoms results hres ⟨os ++ ["  ", "return "], [], none⟩ true rfl rfl
  have h3 : (output.mk (os ++ ["  ", "return "]
          ++ commaSepFrom true (results.map Expr.atomText)) [] none).Writef p ";\n"
      = output.mk (os ++ ["  ", "return "]
          ++ commaSepFrom true (results.map Expr.atomText) ++ [";\n"]) [] none := by
    simpa [List.append_assoc] using
      Writef_nil ⟨os ++ ["  ", "return "] ++ commaSepFrom true (results.map Expr.atomText),
        [], none⟩ rfl rfl p ";\n"
  simp only [handleStmt, Stmt.pos, h0, h1, h2, h3]

/-- C3 witness: the amended claim at the concrete two-result statement. -/
theorem handleStmt_return_no_arity_bound_witness :
    (∀ e ∈ [Expr.basicLit .INT "1" 10, Expr.basicLit .INT "2" 13], e.isAtom = true)
    ∧ handleStmt ⟨["x"], [], none⟩
        (.returnStmt [.basicLit .INT "1" 10, .basicLit .INT "2" 13] 3)
      = (⟨["x", "  ", "return ", "1", ", ", "2", ";\n"], [], none⟩, .ok ()) :=
  ⟨by decide,
   (handleStmt_return_no_arity_bound ⟨["x"], [], none⟩ rfl rfl
      [.basicLit .INT "1" 10, .basicLit .INT "2" 13] (by decide) 3).trans rfl⟩

/-- Folding the per-name write of `handleValueSpec` over a name list
appends one rendered line per name. -/
lemma foldl_Writef (p : Nat) (f : Ident → String) :
    ∀ (names : List Ident) (o : output), o.c = [] → o.err = none →
    names.foldl (fun acc name => acc.Writef p (f name)) o
      = { o with out := o.out ++ names.map f } := by
  intro names
  induction names with
  | nil => intro o hc he; simp
  | cons n rest ih =>
    intro o hc he
    rw [List.foldl_cons, Writef_nil o hc he p (f n), ih { o with out := o.out ++ [f n] } hc he]
    simp

/-- C7: an accepted value spec binding N names with one shared
type/initializer writes exactly N declaration lines, each the same
rendered type token, `=` and literal around the bound name. -/
theorem handleValueSpec_fanout (o : output) (vs : ValueSpec) (k : Token) (lit : String)
    (b : Bool) (hc : o.c = []) (he : o.err = none) (hn : vs.names ≠ [])
    (hg : guessType vs = .ok (k, lit)) (hv : isValueConst vs = some b)
    (ht : tokenStr k b ≠ "") :
    handleValueSpec o vs
      = ({ o with
            out := o.out ++ vs.names.map
                (fun n => String.intercalate " " [tokenStr k b, n.name, "=", lit] ++ ";\n") },
         .ok ()) := by
  have ht' : ¬((tokenStr k b).length = 0) := by
    intro h
    exact ht (by cases hs : tokenStr k b; simp_all)
  simp only [handleValueSpec, hn, if_false, hg, hv, ht', if_true]
  rw [foldl_Writef vs.pos
    (fun n => String.intercalate " " [tokenStr k b, n.name, "=", lit] ++ ";\n") vs.names o hc he]

/-- The value spec of `var a, b int`: two names sharing one explicit type
and zero-value initializer. -/
def vsFan : ValueSpec :=
  ⟨[⟨"a", some .var, 5⟩, ⟨"b", some .var, 8⟩], some (.ident ⟨"int", none, 11⟩), [], 5⟩

/-- C7 witness: the fan-out rule at the concrete two-name spec, producing
two identical declaration lines that differ only in the name. -/
theorem handleValueSpec_fanout_witness :
    vsFan.names ≠ []
    ∧ handleValueSpec ⟨[], [], none⟩ vsFan
        = (⟨["int a = 0;\n", "int b = 0;\n"], [], none⟩, .ok ()) :=
  ⟨by decide,
   (handleValueSpec_fanout ⟨[], [], none⟩ vsFan .INT "0" false rfl rfl (by decide) rfl rfl
      (by decide)).trans rfl⟩

/-- The value spec of `var a, b = 1` as the parser would hand it over:
two bound names and a single literal initializer. -/
def vsMultiName : ValueSpec :=
  ⟨[⟨"a", some .var, 5⟩, ⟨"b", some .var, 8⟩], none, [.basicLit .INT "1" 12], 5⟩

/-- C8 counterexample: a spec with more than one name and a single
literal initializer is accepted and fanned out, where the claim says more
than one name fails with `UnsupportedInitializer`. -/
theorem multi_name_spec_accepted :
    vsMultiName.names.length > 1
    ∧ handleValueSpec ⟨[], [], none⟩ vsMultiName
        = (⟨["int a = 1;\n", "int b = 1;\n"], [], none⟩, .ok ()) :=
  ⟨by decide, rfl⟩

/-- C8 (amended): a value spec with more than one initializer, or whose
single initializer is not a direct literal, fails with an error and
writes nothing; a multi-name spec by itself is not rejected. -/
theorem handleValueSpec_initializer_errors (o : output) (vs : ValueSpec) :
    (vs.values.length > 1 → ∃ e, handleValueSpec o vs = (o, .err e))
    ∧ (∀ v, vs.values = [v] → v.isBasicLit = false →
        ∃ e, handleValueSpec o vs = (o, .err e)) := by
  constructor
  · intro hlen
    by_cases hn : vs.names = []
    · exact ⟨"unsupported # of value names", by simp [handleValueSpec, hn]⟩
    · have hg : guessType vs = .err "unsupported # of values" := by
        simp [guessType, hlen]
      exact ⟨"unsupported # of values", by simp [handleValueSpec, hn, hg]⟩
  · intro v hv hlit
    by_cases hn : vs.names = []
    · exact ⟨"unsupported # of value names", by simp [handleValueSpec, hn]⟩
    · have hg : guessType vs = .err "unsupported value" := by
        cases v <;> simp [Expr.isBasicLit] at hlit <;> simp [guessType, hv]
      exact ⟨"unsupported value", by simp [handleValueSpec, hn, hg]⟩

/-- The value spec of `var a = 1 + 2`: a single computed (non-literal)
initializer. -/
def specComputed : ValueSpec :=
  ⟨[⟨"a", some .var, 5⟩], none,
   [.binaryExpr (.basicLit .INT "1" 9) .ADD (.basicLit .INT "2" 13) 9], 5⟩

/-- C8 witness: the amended claim at the concrete computed-initializer
spec. -/
theorem handleValueSpec_initializer_errors_witness :
    specComputed.values
      = [.binaryExpr (.basicLit .INT "1" 9) .ADD (.basicLit .INT "2" 13) 9]
    ∧ ∃ e, handleValueSpec ⟨[], [], none⟩ specComputed = (⟨[], [], none⟩, .err e) :=
  ⟨rfl,
   (handleValueSpec_initializer_errors ⟨[], [], none⟩ specComputed).2
     (.binaryExpr (.basicLit .INT "1" 9) .ADD (.basicLit .INT "2" 13) 9) rfl rfl⟩

/-- The definition statement `brightness := brightness + fadeAmount`. -/
def stmtFade : Stmt :=
  .assignStmt [.ident ⟨"brightness", some .var, 3⟩] .DEFINE
    [.binaryExpr (.ident ⟨"brightness", some .var, 17⟩) .ADD
      (.ident ⟨"fadeAmount", some .var, 30⟩) 17] 3

/-- C9 counterexample: for `brightness := brightness + fadeAmount` the
type token `typeFromExpr` produces is the empty string, not the
right-hand identifier text; the emitted statement carries a bare space
where a type was meant to go. -/
theorem define_binary_type_token_empty :
    typeFromExpr (.binaryExpr (.ident ⟨"brightness", some .var, 17⟩) .ADD
        (.ident ⟨"fadeAmount", some .var, 30⟩) 17) = ""
    ∧ ("" : String) ≠ "brightness" ∧ ("" : String) ≠ "fadeAmount"
    ∧ ("" : String) ≠ "brightness + fadeAmount"
    ∧ handleStmt ⟨[], [], none⟩ stmtFade
        = (⟨["  ", " ", "brightness", " = ", "brightness", "+", "fadeAmount", ";\n"], [], none⟩,
           .ok ()) :=
  ⟨rfl, by decide, by decide, by decide, rfl⟩

/-- C9 (amended): the `:=` type token comes from `typeFromExpr`: an
identifier right-hand side yields the identifier's own text, a literal
yields the literal kind's non-const C spelling, and any other shape,
a binary expression in particular, yields the empty string; for a
definition from a bare identifier the emitter therefore writes the
identifier text in the type position. -/
theorem typeFromExpr_degrades :
    (∀ i : Ident, typeFromExpr (.ident i) = i.name)
    ∧ (∀ (k : Token) (v : String) (q : Nat), typeFromExpr (.basicLit k v q) = tokenStr k false)
    ∧ (∀ (x : Expr) (op : Token) (y : Expr) (q : Nat), typeFromExpr (.binaryExpr x op y q) = "")
    ∧ (∀ o : output, o.c = [] → o.err = none → ∀ (xi yi : Ident) (p : Nat),
        handleStmt o (.assignStmt [.ident xi] .DEFINE [.ident yi] p)
          = ({ o with out := o.out ++ ["  ", yi.name ++ " ", xi.name, " = ", yi.name, ";\n"] },
             .ok ())) := by
  refine ⟨fun i => rfl, fun k v q => rfl, fun x op y q => rfl, ?_⟩
  intro o hc he xi yi p
  obtain ⟨os, oc, oe⟩ := o
  simp only at hc he
  subst hc; subst he
  simp [handleStmt, Stmt.pos, handleAssignLhsLoop, handleExprListSep, handleExpr, typeFromExpr,
    output.Writef, flushComments]

/-- C9 witness: the amended claim at the concrete definition `x := y`. -/
theorem typeFromExpr_degrades_witness :
    handleStmt ⟨[], [], none⟩
        (.assignStmt [.ident ⟨"x", some .var, 1⟩] .DEFINE [.ident ⟨"y", some .var, 6⟩] 1)
      = (⟨["  ", "y ", "x", " = ", "y", ";\n"], [], none⟩, .ok ()) :=
  (typeFromExpr_degrades.2.2.2 ⟨[], [], none⟩ rfl rfl ⟨"x", some .var, 1⟩
    ⟨"y", some .var, 6⟩ 1).trans rfl

/-- The comment-flushing loop drains exactly the longest prefix of
groups strictly before the node position, emitting their lines in list
order, each with a newline appended. -/
lemma flushComments_eq (p : Nat) : ∀ c : List CommentGroup,
    flushComments c p =
      (c.dropWhile (fun g => p > g.pos),
       (c.takeWhile (fun g => p > g.pos)).flatMap (fun g => g.list.map (fun s => s ++ "\n"))) := by
  intro c
  induction c with
  | nil => simp [flushComments]
  | cons g rest ih =>
    by_cases h : p > g.pos
    · simp [flushComments, h, List.dropWhile_cons, List.takeWhile_cons, ih]
    · simp [flushComments, h, List.dropWhile_cons, List.takeWhile_cons]

/-- On a position-sorted buffer, every group surviving the drain starts
at or after the node position. -/
lemma dropWhile_pos_ge (p : Nat) : ∀ c : List CommentGroup,
    c.Pairwise (fun a b => a.pos ≤ b.pos) →
    ∀ g ∈ c.dropWhile (fun g => p > g.pos), p ≤ g.pos := by
  intro c
  induction c with
  | nil => simp
  | cons a rest ih =>
    intro hp g hg
    rw [List.pairwise_cons] at hp
    by_cases h : p > a.pos
    · rw [List.dropWhile_cons] at hg
      simp only [h, decide_eq_true_eq, if_pos] at hg
      exact ih hp.2 g hg
    · rw [List.dropWhile_cons] at hg
      simp [h] at hg
      rcases hg with rfl | hmem
      · omega
      · have := hp.1 g hmem
        omega

/-- The drained buffer is a suffix of the original buffer: the comment
cursor only advances. -/
lemma dropWhile_isSuffix (p : Nat) : ∀ c : List CommentGroup,
    List.IsSuffix (c.dropWhile (fun g => p > g.pos)) c := by
  intro c
  induction c with
  | nil => simp
  | cons a rest ih =>
    rw [List.dropWhile_cons]
    by_cases h : p > a.pos
    · simp only [h, decide_eq_true_eq, if_pos]
      exact ih.trans (List.suffix_cons a rest)
    · simp [h]

/-- C1: with no pending error and a position-sorted comment buffer, a
write first emits, in buffer order, the lines of every buffered group
whose start precedes the node position, each followed by a newline, then
the node's text; the surviving buffer is the suffix past those groups,
so the cursor only advances and no surviving group precedes the node. -/
theorem Writef_flushes_preceding_comments (o : output) (p : Nat) (t : String)
    (he : o.err = none) (hs : o.c.Pairwise (fun a b => a.pos ≤ b.pos)) :
    (o.Writef p t).out
      = o.out ++ (o.c.takeWhile (fun g => p > g.pos)).flatMap
          (fun g => g.list.map (fun s => s ++ "\n")) ++ [t]
    ∧ (o.Writef p t).c = o.c.dropWhile (fun g => p > g.pos)
    ∧ List.IsSuffix (o.Writef p t).c o.c
    ∧ (∀ g ∈ o.c, g.pos < p → g ∈ o.c.takeWhile (fun g => p > g.pos))
    ∧ (∀ g ∈ (o.Writef p t).c, p ≤ g.pos) := by
  have hw : o.Writef p t
      = { o with
            c := o.c.dropWhile (fun g => p > g.pos),
            out := o.out ++ (o.c.takeWhile (fun g => p > g.pos)).flatMap
              (fun g => g.list.map (fun s => s ++ "\n")) ++ [t] } := by
    rw [output.Writef.eq_def, he, flushComments_eq]
  refine ⟨by rw [hw], by rw [hw], ?_, ?_, ?_⟩
  · rw [show (o.Writef p t).c = o.c.dropWhile (fun g => p > g.pos) from by rw [hw]]
    exact dropWhile_isSuffix p o.c
  · intro g hg hlt
    have hsplit := List.takeWhile_append_dropWhile (p := fun g => decide (p > g.pos)) (l := o.c)
    rw [← hsplit] at hg
    rcases List.mem_append.mp hg with hmem | hmem
    · exact hmem
    · have := dropWhile_pos_ge p o.c hs g hmem
      omega
  · intro g hg
    rw [show (o.Writef p t).c = o.c.dropWhile (fun g => p > g.pos) from by rw [hw]] at hg
    exact dropWhile_pos_ge p o.c hs g hg

/-- A concrete sink holding two buffered comment groups, at positions 1
and 5. -/
def commentSink : output :=
  ⟨["x"], [⟨["// a", "// b"], 1⟩, ⟨["// c"], 5⟩], none⟩

/-- C1 witness: the flushing contract at the concrete sink, with a node
position past the first group only: the first group's lines are emitted
before the text and the second group survives. -/
theorem Writef_flushes_preceding_comments_witness :
    commentSink.err = none
    ∧ (commentSink.Writef 3 "T").out = ["x", "// a\n", "// b\n", "T"]
    ∧ (commentSink.Writef 3 "T").c = [⟨["// c"], 5⟩] :=
  ⟨rfl,
   ((Writef_flushes_preceding_comments commentSink 3 "T" rfl (by decide)).1).trans rfl,
   ((Writef_flushes_preceding_comments commentSink 3 "T" rfl (by decide)).2.1).trans rfl⟩

end Mugo
